import Mathlib

/-!
Verification of the jump-challenge email organization service.

This file shallowly embeds the Go source of the repository
(sync engine, Gmail body decoding, AI classification matching,
bulk delete, unsubscribe automation, SSE broadcaster registry,
in-memory and Postgres message stores) as executable Lean
definitions, and proves or refutes the specified properties.

Go strings are modelled as Lean `String` where only comparison is
needed, and as `List Char` where the claims require reasoning about
string structure (splitting, escaping, concatenation).  External
effects (HTTP, base64 decoding, the AI backend) are passed in as
function parameters, mirroring the interfaces the Go code consumes.
-/

/-- Character-list model of a Go string (used where structural
reasoning over the text is required). -/
abbrev Chars := List Char

/-- Whitespace test used by Go strings.TrimSpace (ASCII subset). -/
def isSpaceChar (c : Char) : Bool :=
  c = ' ' || c = '\t' || c = '\n' || c = '\r' || c = '\x0b' || c = '\x0c'

/-- strings.TrimSpace on a character list. -/
def trimChars (l : Chars) : Chars :=
  ((l.dropWhile isSpaceChar).reverse.dropWhile isSpaceChar).reverse

/-- strings.TrimSpace on a Lean string. -/
def goTrimSpace (s : String) : String :=
  String.mk (trimChars s.data)

/-- strings.ToLower (ASCII case folding, as used by the repository). -/
def goToLower (s : String) : String :=
  String.mk (s.data.map Char.toLower)

/-- Substring containment over character lists (strings.Contains). -/
def containsSub (sub : Chars) : Chars → Bool
  | [] => sub.isEmpty
  | c :: t => sub.isPrefixOf (c :: t) || containsSub sub t

/-- strings.Contains for Lean strings. -/
def strContains (s sub : String) : Bool :=
  containsSub sub.data s.data

/-! ## AI classification: findBestCategoryMatch (internal/ai client)

Source: aiClient.ClassifyEmail lowers and trims the raw model output
and resolves it against the known category names with
findBestCategoryMatch: exact case-insensitive match first, then
substring containment in either direction, then the first category. -/

/-- The normalized model response used by findBestCategoryMatch
(strings.ToLower of strings.TrimSpace). -/
def respNorm (response : String) : String :=
  goToLower (goTrimSpace response)

/-- Exact case-insensitive comparison of a category name against the
normalized response (first loop of findBestCategoryMatch). -/
def exactMatches (responseLower category : String) : Bool :=
  goToLower (goTrimSpace category) == responseLower

/-- Substring containment in either direction between the normalized
response and a category name (second loop of findBestCategoryMatch). -/
def partialMatches (responseLower category : String) : Bool :=
  strContains responseLower (goToLower (goTrimSpace category)) ||
    strContains (goToLower (goTrimSpace category)) responseLower

/-- First loop of findBestCategoryMatch: first exact
(case-insensitive) match. -/
def findExactMatch (responseLower : String) : List String → Option String
  | [] => none
  | c :: rest =>
    if exactMatches responseLower c then some c
    else findExactMatch responseLower rest

/-- Second loop of findBestCategoryMatch: first partial
(containment) match. -/
def findPartialMatch (responseLower : String) : List String → Option String
  | [] => none
  | c :: rest =>
    if partialMatches responseLower c then some c
    else findPartialMatch responseLower rest

/-- findBestCategoryMatch from the AI client: exact match, else
partial match, else first category, else the empty string. -/
def findBestCategoryMatch (response : String) (categories : List String) : String :=
  let responseLower := respNorm response
  match findExactMatch responseLower categories with
  | some c => c
  | none =>
    match findPartialMatch responseLower categories with
    | some c => c
    | none =>
      match categories with
      | c :: _ => c
      | [] => ""

theorem findExactMatch_eq_find? (r : String) (cats : List String) :
    findExactMatch r cats = cats.find? (fun c => exactMatches r c) := by
  induction cats with
  | nil => rfl
  | cons c rest ih =>
    by_cases h : exactMatches r c
    · simp [findExactMatch, List.find?, h]
    · simp only [Bool.not_eq_true] at h
      simp [findExactMatch, List.find?, h, ih]

theorem findPartialMatch_eq_find? (r : String) (cats : List String) :
    findPartialMatch r cats = cats.find? (fun c => partialMatches r c) := by
  induction cats with
  | nil => rfl
  | cons c rest ih =>
    by_cases h : partialMatches r c
    · simp [findPartialMatch, List.find?, h]
    · simp only [Bool.not_eq_true] at h
      simp [findPartialMatch, List.find?, h, ih]

/-- The worked example category list from the specification. -/
def workPersonal : List String := ["Work", "Personal"]

/-- C4: for every non-empty category list and every AI output string,
classification resolves the chosen category by exact case-insensitive
name match first; if none matches, by substring containment in either
direction; and if still no match, deterministically returns the first
category in the caller-supplied list (with the specification's worked
examples on categories ["Work", "Personal"]). -/
theorem findBestCategoryMatch_fallback_order (cats : List String) (r : String)
    (h : cats ≠ []) :
    (∀ c, cats.find? (fun cat => exactMatches (respNorm r) cat) = some c →
       findBestCategoryMatch r cats = c) ∧
    (cats.find? (fun cat => exactMatches (respNorm r) cat) = none →
       ∀ c, cats.find? (fun cat => partialMatches (respNorm r) cat) = some c →
         findBestCategoryMatch r cats = c) ∧
    (cats.find? (fun cat => exactMatches (respNorm r) cat) = none →
       cats.find? (fun cat => partialMatches (respNorm r) cat) = none →
         findBestCategoryMatch r cats = cats.head h) ∧
    findBestCategoryMatch ("work") workPersonal = ("Work") ∧
    findBestCategoryMatch ("definitely work related") workPersonal = ("Work") ∧
    findBestCategoryMatch ("Unrelated") workPersonal = ("Work") := by
  refine ⟨?_, ?_, ?_, by decide, by decide, by decide⟩
  · intro c hc
    simp [findBestCategoryMatch, findExactMatch_eq_find?, hc]
  · intro hnone c hc
    simp [findBestCategoryMatch, findExactMatch_eq_find?,
      findPartialMatch_eq_find?, hnone, hc]
  · intro h1 h2
    cases cats with
    | nil => exact absurd rfl h
    | cons a t =>
      simp [findBestCategoryMatch, findExactMatch_eq_find?,
        findPartialMatch_eq_find?, h1, h2]

/-- Witness for C4: the fallback clause evaluated at categories
["Work", "Personal"] and model output "Unrelated". -/
theorem findBestCategoryMatch_fallback_order_witness :
    findBestCategoryMatch ("Unrelated") workPersonal = ("Work") :=
  (findBestCategoryMatch_fallback_order workPersonal ("Unrelated")
    (by decide)).2.2.1 (by decide) (by decide)

/-! ## Data model (internal/model/email.go) -/

/-- model.Email.  Timestamps are abstracted as naturals. -/
structure Email where
  id : String
  userID : String
  gmailID : String
  fromAddr : String
  subject : String
  body : String
  summary : String
  categoryID : String
  receivedAt : Nat
  archived : Bool
  createdAt : Nat
  updatedAt : Nat
deriving DecidableEq

/-- model.NewEmail: the generated uuid and the current time are passed
in as the freshID and now parameters. -/
def NewEmail (freshID userID gmailID fromAddr subject body : String)
    (receivedAt now : Nat) : Email :=
  { id := freshID, userID := userID, gmailID := gmailID,
    fromAddr := fromAddr, subject := subject, body := body,
    summary := "", categoryID := "", receivedAt := receivedAt,
    archived := false, createdAt := now, updatedAt := now }

/-! ## Gmail cursor pagination (gmailClient.SyncEmails, cursor filter)

Source: the listed page is walked once; shouldStartCollecting starts
false for a non-empty afterEmailID cursor, flips on the message whose
id equals the cursor (that message itself is skipped), and messages
before the flip are skipped. -/

/-- The skip-until-cursor scan of gmailClient.SyncEmails over the ids
of one provider page; the Boolean argument is shouldStartCollecting. -/
def collectAfterLoop (afterID : String) : List String → Bool → List String
  | [], _ => []
  | id :: rest, collecting =>
    if (!(afterID == "")) && id == afterID then
      collectAfterLoop afterID rest true
    else if (!(afterID == "")) && !collecting then
      collectAfterLoop afterID rest collecting
    else
      id :: collectAfterLoop afterID rest collecting

/-- The cursor filter with its initial state
(shouldStartCollecting := afterEmailID == ""). -/
def collectAfter (afterID : String) (ids : List String) : List String :=
  collectAfterLoop afterID ids (afterID == "")

/-- gmailClient.SyncEmails result set: ids surviving the cursor filter,
each resolved through the per-message fetch; a failed fetch skips that
message (the Go loop logs and continues). -/
def gmailSyncEmails (afterID : String) (msgIds : List String)
    (fetchMsg : String → Option Email) : List Email :=
  (collectAfter afterID msgIds).filterMap fetchMsg

theorem collectAfterLoop_collecting (c : String)
    (l : List String) (hl : c ∉ l) :
    collectAfterLoop c l true = l := by
  induction l with
  | nil => rfl
  | cons a t ih =>
    simp only [List.mem_cons, not_or] at hl
    obtain ⟨h1, h2⟩ := hl
    have ha : (a == c) = false := beq_eq_false_iff_ne.mpr (fun h => h1 h.symm)
    simp [collectAfterLoop, ha, ih h2]

theorem collectAfterLoop_skipping (c : String) (hc : c ≠ "")
    (pre rest : List String) (hpre : c ∉ pre) :
    collectAfterLoop c (pre ++ rest) false = collectAfterLoop c rest false := by
  induction pre with
  | nil => rfl
  | cons a t ih =>
    have hcb : (c == "") = false := by simp [beq_eq_false_iff_ne, hc]
    simp only [List.mem_cons, not_or] at hpre
    obtain ⟨h1, h2⟩ := hpre
    have ha : (a == c) = false := beq_eq_false_iff_ne.mpr (fun h => h1 h.symm)
    simp [collectAfterLoop, ha, hcb, ih h2]

/-- C5: for every provider page and non-empty cursor, the fetch skips
all results up to and including the message bearing the cursor id and
returns exactly the messages after it in original order; if the cursor
id never appears in the page, no messages are returned. -/
theorem gmailSyncEmails_cursor_pagination (c : String)
    (fetch : String → Email) (hc : c ≠ "") :
    (∀ pre post : List String, c ∉ pre → c ∉ post →
       gmailSyncEmails c (pre ++ c :: post) (fun i => some (fetch i)) =
         post.map fetch) ∧
    (∀ ids : List String, c ∉ ids →
       gmailSyncEmails c ids (fun i => some (fetch i)) = []) := by
  have hcb : (c == "") = false := by simp [beq_eq_false_iff_ne, hc]
  constructor
  · intro pre post hpre hpost
    have h1 : collectAfter c (pre ++ c :: post) = post := by
      unfold collectAfter
      rw [hcb, collectAfterLoop_skipping c hc pre _ hpre]
      simp [collectAfterLoop, hcb, collectAfterLoop_collecting c post hpost]
    have h2 : List.filterMap (fun i => some (fetch i)) post = post.map fetch := by
      rw [show (fun i => some (fetch i)) = some ∘ fetch from rfl,
        List.filterMap_eq_map]
    simp [gmailSyncEmails, h1, h2]
  · intro ids hids
    have h1 : collectAfter c ids = [] := by
      unfold collectAfter
      rw [hcb]
      have := collectAfterLoop_skipping c hc ids [] hids
      simpa using this
    simp [gmailSyncEmails, h1]

/-- Witness for C5: a page of five messages with the cursor equal to
the third message's id yields exactly messages four and five in order,
and a cursor absent from the page yields no messages. -/
theorem gmailSyncEmails_cursor_pagination_witness :
    gmailSyncEmails ("m3") (["m1", "m2"] ++ "m3" :: ["m4", "m5"])
      (fun i => some (NewEmail i ("u") i ("s") ("subj") ("b") 0 0)) =
      ["m4", "m5"].map (fun i => NewEmail i ("u") i ("s") ("subj") ("b") 0 0) ∧
    gmailSyncEmails ("zz") ["m1", "m2", "m3", "m4", "m5"]
      (fun i => some (NewEmail i ("u") i ("s") ("subj") ("b") 0 0)) = [] := by
  constructor
  · exact (gmailSyncEmails_cursor_pagination ("m3")
      (fun i => NewEmail i ("u") i ("s") ("subj") ("b") 0 0)
      (by decide)).1 ["m1", "m2"] ["m4", "m5"] (by decide) (by decide)
  · exact (gmailSyncEmails_cursor_pagination ("zz")
      (fun i => NewEmail i ("u") i ("s") ("subj") ("b") 0 0)
      (by decide)).2 ["m1", "m2", "m3", "m4", "m5"] (by decide)

/-! ## Plain-text fallback formatting (gmailClient.textToHtml)

Source: textToHtml splits the text on newline characters, trims each
line, wraps each non-empty line in an escaped paragraph, and emits a
non-breaking-space paragraph for each empty line at an interior index
(i > 0 and i < len(lines)-1). -/

/-- html.EscapeString on one character. -/
def escapeChar (c : Char) : Chars :=
  if c = '&' then ("&amp;").data
  else if c = '\'' then ("&#39;").data
  else if c = '<' then ("&lt;").data
  else if c = '>' then ("&gt;").data
  else if c = '\"' then ("&#34;").data
  else [c]

/-- html.EscapeString over a character list. -/
def escapeString (l : Chars) : Chars :=
  l.flatMap escapeChar

/-- strings.Split on the newline separator (keeps empty fields),
accumulator form. -/
def splitOnNlAux : Chars → Chars → List Chars
  | [], acc => [acc.reverse]
  | c :: t, acc =>
    if c = '\n' then acc.reverse :: splitOnNlAux t []
    else splitOnNlAux t (c :: acc)

/-- strings.Split(text, newline). -/
def splitOnNl (l : Chars) : List Chars :=
  splitOnNlAux l []

/-- The indexed line loop of textToHtml. -/
def textToHtmlLoop (total : Nat) : Nat → List Chars → Chars
  | _, [] => []
  | i, line :: rest =>
    let t := trimChars line
    (if t ≠ [] then ("<p>").data ++ escapeString t ++ ("</p>").data
     else if 0 < i ∧ i < total - 1 then ("<p>&nbsp;</p>").data
     else []) ++ textToHtmlLoop total (i + 1) rest

/-- gmailClient.textToHtml. -/
def textToHtml (text : Chars) : Chars :=
  textToHtmlLoop (splitOnNl text).length 0 (splitOnNl text)

/-- Occurrence count of a pattern in a character list (used to count
paragraph segments in produced HTML). -/
def countSub (pat l : Chars) : Nat :=
  (l.tails.filter (fun t => pat.isPrefixOf t)).length

theorem splitOnNlAux_no_nl (l : Chars) (h : '\n' ∉ l) :
    ∀ acc : Chars, splitOnNlAux l acc = [acc.reverse ++ l] := by
  induction l with
  | nil => intro acc; simp [splitOnNlAux]
  | cons c t ih =>
    intro acc
    simp only [List.mem_cons, not_or] at h
    have hc : ¬ c = '\n' := fun e => h.1 e.symm
    simp [splitOnNlAux, hc, ih h.2]

theorem splitOnNlAux_append (p rest : Chars) (h : '\n' ∉ p) :
    ∀ acc : Chars, splitOnNlAux (p ++ '\n' :: rest) acc =
      (acc.reverse ++ p) :: splitOnNlAux rest [] := by
  induction p with
  | nil => intro acc; simp [splitOnNlAux]
  | cons c t ih =>
    intro acc
    simp only [List.mem_cons, not_or] at h
    have hc : ¬ c = '\n' := fun e => h.1 e.symm
    simp [splitOnNlAux, hc, ih h.2]

theorem trimChars_nil : trimChars ([] : Chars) = [] := rfl

theorem splitOnNlAux_cons_nl (rest : Chars) (acc : Chars) :
    splitOnNlAux ('\n' :: rest) acc = acc.reverse :: splitOnNlAux rest [] := by
  simp [splitOnNlAux]

/-- C7 counterexample: the three-paragraph plain-text body
"A\nB\n\nC\n\nD" (paragraphs "A\nB", "C" and "D", each pair separated
by one blank line) converts to HTML with four non-spacer paragraph
segments, not exactly three: the code splits on every newline, so the
two-line first paragraph produces two paragraph segments. -/
theorem textToHtml_three_paragraph_counterexample :
    textToHtml (("A\nB\n\nC\n\nD").data) =
      ("<p>A</p><p>B</p><p>&nbsp;</p><p>C</p><p>&nbsp;</p><p>D</p>").data ∧
    countSub (("<p>").data) (textToHtml (("A\nB\n\nC\n\nD").data)) -
      countSub (("<p>&nbsp;</p>").data) (textToHtml (("A\nB\n\nC\n\nD").data))
      = 4 := by
  decide

/-- C7 amended: textToHtml splits on every newline (not on blank
lines), wrapping each non-empty trimmed line in an escaped paragraph
and emitting a non-breaking-space paragraph for each interior blank
line; consequently a three-paragraph body whose paragraphs are single
lines separated by one blank line converts to exactly three
paragraph-wrapped segments with an inter-paragraph spacer between
consecutive paragraphs. -/
theorem textToHtml_single_line_paragraphs (p1 p2 p3 : Chars)
    (h1 : '\n' ∉ p1) (h2 : '\n' ∉ p2) (h3 : '\n' ∉ p3)
    (t1 : trimChars p1 ≠ []) (t2 : trimChars p2 ≠ []) (t3 : trimChars p3 ≠ []) :
    textToHtml (p1 ++ ('\n' :: '\n' :: (p2 ++ '\n' :: '\n' :: p3))) =
      ("<p>").data ++ escapeString (trimChars p1) ++ ("</p>").data ++
      ("<p>&nbsp;</p>").data ++
      ("<p>").data ++ escapeString (trimChars p2) ++ ("</p>").data ++
      ("<p>&nbsp;</p>").data ++
      ("<p>").data ++ escapeString (trimChars p3) ++ ("</p>").data := by
  have hs : splitOnNl (p1 ++ ('\n' :: '\n' :: (p2 ++ '\n' :: '\n' :: p3))) =
      [p1, [], p2, [], p3] := by
    unfold splitOnNl
    rw [splitOnNlAux_append p1 _ h1, splitOnNlAux_cons_nl,
      splitOnNlAux_append p2 _ h2, splitOnNlAux_cons_nl,
      splitOnNlAux_no_nl p3 h3]
    simp
  unfold textToHtml
  rw [hs]
  simp [textToHtmlLoop, t1, t2, t3, trimChars_nil]

/-- Witness for C7 (amended): three concrete single-line paragraphs. -/
theorem textToHtml_single_line_paragraphs_witness :
    textToHtml (("One").data ++ ('\n' :: '\n' :: (("Two").data ++
        '\n' :: '\n' :: ("Three").data))) =
      ("<p>").data ++ escapeString (trimChars (("One").data)) ++ ("</p>").data ++
      ("<p>&nbsp;</p>").data ++
      ("<p>").data ++ escapeString (trimChars (("Two").data)) ++ ("</p>").data ++
      ("<p>&nbsp;</p>").data ++
      ("<p>").data ++ escapeString (trimChars (("Three").data)) ++ ("</p>").data :=
  textToHtml_single_line_paragraphs (("One").data) (("Two").data) (("Three").data)
    (by decide) (by decide) (by decide) (by decide) (by decide) (by decide)

/-! ## MIME body decoding (gmailClient.extractBody and
extractMultipartBody)

Source: extractMultipartBody walks the parts of a multipart message,
keeping the latest successfully decoded text/html part and the latest
successfully decoded text/plain part; for a nested container it
recurses, and if the recursion yields non-empty content while no HTML
has been seen yet, it returns that content immediately.  After the
walk, HTML wins over plain text; plain text is converted with
textToHtml; otherwise extractBodyAsText is the fallback.  Base64url
decoding is abstracted as the decode parameter (none = decode error,
which the Go code logs and skips). -/

/-- gmail.MessagePart: mime type, body data, nested parts. -/
inductive MsgPart : Type where
  | mk : String → Chars → List MsgPart → MsgPart

/-- The MimeType field of a part. -/
def MsgPart.mime : MsgPart → String
  | .mk m _ _ => m

/-- The Body.Data field of a part. -/
def MsgPart.bodyData : MsgPart → Chars
  | .mk _ d _ => d

/-- The Parts field of a part. -/
def MsgPart.subparts : MsgPart → List MsgPart
  | .mk _ _ ps => ps

/-- extractBodyAsText part search: the first part satisfying the
predicate with non-empty data that decodes successfully (a decode
error is logged and skipped). -/
def firstDecodable (decode : Chars → Option Chars) (pred : MsgPart → Bool) :
    List MsgPart → Option Chars
  | [] => none
  | p :: rest =>
    if pred p && !(p.bodyData).isEmpty then
      match decode p.bodyData with
      | some d => some d
      | none => firstDecodable decode pred rest
    else firstDecodable decode pred rest

/-- gmailClient.extractBodyAsText: direct data, else the first
decodable text/plain part, else the first decodable part, else the
empty string. -/
def extractBodyAsText (decode : Chars → Option Chars) (p : MsgPart) : Chars :=
  if !(p.bodyData).isEmpty then
    match decode p.bodyData with
    | some d => d
    | none => []
  else
    match firstDecodable decode (fun q => q.mime == "text/plain") p.subparts with
    | some d => d
    | none =>
      match firstDecodable decode (fun _ => true) p.subparts with
      | some d => d
      | none => []

/-- The part walk of gmailClient.extractMultipartBody.  The two
accumulators are htmlBody and textBody; Sum.inl is the early return
taken when a nested container yields non-empty content and htmlBody is
still empty (the final selection of the recursive call is inlined at
the nested-container branch). -/
def extractLoop (decode : Chars → Option Chars) :
    List MsgPart → Chars → Chars → Sum Chars (Chars × Chars)
  | [], hB, tB => Sum.inr (hB, tB)
  | MsgPart.mk m d ps :: rest, hB, tB =>
    if m == "text/html" && !d.isEmpty then
      match decode d with
      | some dec => extractLoop decode rest dec tB
      | none => extractLoop decode rest hB tB
    else if m == "text/plain" && !d.isEmpty then
      match decode d with
      | some dec => extractLoop decode rest hB dec
      | none => extractLoop decode rest hB tB
    else if 0 < ps.length then
      let nested :=
        match extractLoop decode ps [] [] with
        | Sum.inl s => s
        | Sum.inr (h2, t2) =>
          if !h2.isEmpty then h2
          else if !t2.isEmpty then textToHtml t2
          else extractBodyAsText decode (MsgPart.mk ("") [] ps)
      if !nested.isEmpty && hB.isEmpty then Sum.inl nested
      else extractLoop decode rest hB tB
    else extractLoop decode rest hB tB
termination_by parts _ _ => sizeOf parts

/-- gmailClient.extractMultipartBody. -/
def extractMultipartBody (decode : Chars → Option Chars)
    (parts : List MsgPart) : Chars :=
  match extractLoop decode parts [] [] with
  | Sum.inl s => s
  | Sum.inr (hB, tB) =>
    if !hB.isEmpty then hB
    else if !tB.isEmpty then textToHtml tB
    else extractBodyAsText decode (MsgPart.mk ("") [] parts)

/-- gmailClient.extractBody. -/
def extractBody (decode : Chars → Option Chars) (p : MsgPart) : Chars :=
  if 0 < p.subparts.length then extractMultipartBody decode p.subparts
  else if p.mime == "text/html" && !(p.bodyData).isEmpty then
    match decode p.bodyData with
    | some d => d
    | none => extractBodyAsText decode p
  else extractBodyAsText decode p

/-- A text/plain leaf part with body PLAIN. -/
def msgPartPlain : MsgPart := MsgPart.mk ("text/plain") ['P', 'L', 'A', 'I', 'N'] []

/-- A text/html leaf part with body of an html fragment. -/
def msgPartHtml : MsgPart :=
  MsgPart.mk ("text/html") ['<', 'b', '>', 'H', '<', '/', 'b', '>'] []

/-- C6 counterexample: a multipart message containing both a text/html
part and a text/plain part, where the plain part sits inside a nested
sibling container that precedes the HTML part.  The nested recursion
yields non-empty plain-derived HTML while htmlBody is still empty, so
extractMultipartBody returns the plain-derived HTML immediately and
the sibling HTML part never wins — refuting the claim that the
canonical body is the decoded HTML part regardless of where the
plain-text part appears.  Decoding is the identity. -/
theorem extractMultipartBody_nested_plain_beats_html :
    extractMultipartBody (fun d => some d)
      [MsgPart.mk ("multipart/alternative") [] [msgPartPlain], msgPartHtml] =
      textToHtml ['P', 'L', 'A', 'I', 'N'] ∧
    extractMultipartBody (fun d => some d)
      [MsgPart.mk ("multipart/alternative") [] [msgPartPlain], msgPartHtml] ≠
      ['<', 'b', '>', 'H', '<', '/', 'b', '>'] := by
  have inner : extractLoop (fun d => some d) [msgPartPlain] [] [] =
      Sum.inr ([], ['P', 'L', 'A', 'I', 'N']) := by
    rw [msgPartPlain]
    rw [extractLoop]
    simp [extractLoop]
  have h1 : extractMultipartBody (fun d => some d)
      [MsgPart.mk ("multipart/alternative") [] [msgPartPlain], msgPartHtml] =
      textToHtml ['P', 'L', 'A', 'I', 'N'] := by
    rw [extractMultipartBody]
    rw [extractLoop]
    rw [msgPartPlain] at inner ⊢
    simp [inner, textToHtml, textToHtmlLoop, splitOnNl, splitOnNlAux, trimChars,
      isSpaceChar, escapeString, escapeChar]
  refine ⟨h1, ?_⟩
  rw [h1]
  decide

theorem extractLoop_flat_no_html (decode : Chars → Option Chars)
    (parts : List MsgPart) :
    (∀ p ∈ parts, p.subparts = []) →
    (∀ p ∈ parts, p.mime = "text/html" → p.bodyData ≠ [] →
      decode p.bodyData = none) →
    ∀ hB tB, ∃ t2, extractLoop decode parts hB tB = Sum.inr (hB, t2) := by
  induction parts with
  | nil =>
    intro _ _ hB tB
    exact ⟨tB, by rw [extractLoop]⟩
  | cons p rest ih =>
    intro hflat hnone hB tB
    obtain ⟨m, d, ps⟩ := p
    have hps : ps = [] := hflat _ (List.mem_cons_self _ _)
    subst hps
    have ihr := ih (fun q hq => hflat q (List.mem_cons_of_mem _ hq))
      (fun q hq => hnone q (List.mem_cons_of_mem _ hq))
    by_cases h1 : (m == "text/html" && !d.isEmpty) = true
    · obtain ⟨hm, hd⟩ : m = "text/html" ∧ d ≠ [] := by
        simpa [List.isEmpty_iff] using h1
      have hdec : decode d = none :=
        hnone (MsgPart.mk m d []) (List.mem_cons_self _ _) hm hd
      obtain ⟨t2, ht⟩ := ihr hB tB
      refine ⟨t2, ?_⟩
      rw [extractLoop]
      simp [h1, hdec, ht]
    · by_cases h2 : (m == "text/plain" && !d.isEmpty) = true
      · cases hdec : decode d with
        | some dec =>
          obtain ⟨t2, ht⟩ := ihr hB dec
          exact ⟨t2, by rw [extractLoop]; simp [h1, h2, hdec, ht]⟩
        | none =>
          obtain ⟨t2, ht⟩ := ihr hB tB
          exact ⟨t2, by rw [extractLoop]; simp [h1, h2, hdec, ht]⟩
      · obtain ⟨t2, ht⟩ := ihr hB tB
        refine ⟨t2, ?_⟩
        rw [extractLoop]
        simp [h1, h2, ht]

theorem extractLoop_flat_last_html (decode : Chars → Option Chars)
    (pre : List MsgPart) :
    ∀ (hp : MsgPart) (post : List MsgPart) (h : Chars),
    (∀ p ∈ pre ++ hp :: post, p.subparts = []) →
    hp.mime = "text/html" → hp.bodyData ≠ [] → decode hp.bodyData = some h →
    (∀ p ∈ post, p.mime = "text/html" → p.bodyData ≠ [] →
      decode p.bodyData = none) →
    ∀ hB tB, ∃ t2,
      extractLoop decode (pre ++ hp :: post) hB tB = Sum.inr (h, t2) := by
  induction pre with
  | nil =>
    intro hp post h hflat hm hd hdec hpost hB tB
    obtain ⟨m, d, ps⟩ := hp
    have hm' : m = "text/html" := hm
    have hd' : d ≠ [] := hd
    have h1 : (m == "text/html" && !d.isEmpty) = true := by
      simp [hm', List.isEmpty_iff, hd']
    obtain ⟨t2, ht⟩ := extractLoop_flat_no_html decode post
      (fun q hq => hflat q (List.mem_cons_of_mem _ hq)) hpost h tB
    refine ⟨t2, ?_⟩
    rw [List.nil_append, extractLoop]
    have hdec' : decode d = some h := hdec
    simp [h1, hdec', ht]
  | cons a pre' ih =>
    intro hp post h hflat hm hd hdec hpost hB tB
    obtain ⟨m, d, ps⟩ := a
    have hps : ps = [] := hflat (MsgPart.mk m d ps) (List.mem_cons_self _ _)
    subst hps
    have ihr := ih hp post h (fun q hq => hflat q (List.mem_cons_of_mem _ hq))
      hm hd hdec hpost
    by_cases h1 : (m == "text/html" && !d.isEmpty) = true
    · cases hdec2 : decode d with
      | some dec =>
        obtain ⟨t2, ht⟩ := ihr dec tB
        exact ⟨t2, by rw [List.cons_append, extractLoop]; simp [h1, hdec2, ht]⟩
      | none =>
        obtain ⟨t2, ht⟩ := ihr hB tB
        exact ⟨t2, by rw [List.cons_append, extractLoop]; simp [h1, hdec2, ht]⟩
    · by_cases h2 : (m == "text/plain" && !d.isEmpty) = true
      · cases hdec2 : decode d with
        | some dec =>
          obtain ⟨t2, ht⟩ := ihr hB dec
          exact ⟨t2, by rw [List.cons_append, extractLoop]; simp [h1, h2, hdec2, ht]⟩
        | none =>
          obtain ⟨t2, ht⟩ := ihr hB tB
          exact ⟨t2, by rw [List.cons_append, extractLoop]; simp [h1, h2, hdec2, ht]⟩
      · obtain ⟨t2, ht⟩ := ihr hB tB
        exact ⟨t2, by rw [List.cons_append, extractLoop]; simp [h1, h2, ht]⟩

/-- C6 amended: when the multipart message's parts are all leaves (no
nested container precedes the HTML part), the canonical body equals
the decoded content of the last text/html part whose non-empty data
decodes successfully — never the plain-text-derived HTML — regardless
of where text/plain parts appear among the siblings.  (The claim as
stated fails when a nested sibling containing only plain text precedes
the HTML part: the nested content is returned immediately.) -/
theorem extractMultipartBody_flat_html_wins (decode : Chars → Option Chars)
    (pre post : List MsgPart) (hp : MsgPart) (h : Chars)
    (hflat : ∀ p ∈ pre ++ hp :: post, p.subparts = [])
    (hm : hp.mime = "text/html") (hd : hp.bodyData ≠ [])
    (hdec : decode hp.bodyData = some h) (hne : h ≠ [])
    (hpost : ∀ p ∈ post, p.mime = "text/html" → p.bodyData ≠ [] →
      decode p.bodyData = none) :
    extractMultipartBody decode (pre ++ hp :: post) = h := by
  obtain ⟨t2, ht⟩ := extractLoop_flat_last_html decode pre hp post h hflat
    hm hd hdec hpost [] []
  unfold extractMultipartBody
  rw [ht]
  have hh : h.isEmpty = false := by
    cases h with
    | nil => exact absurd rfl hne
    | cons c cs => rfl
  simp [hh]

/-- Witness for C6 (amended): a flat multipart input with the plain
part first and the HTML part second resolves to the decoded HTML. -/
theorem extractMultipartBody_flat_html_wins_witness :
    extractMultipartBody (fun d => some d) ([msgPartPlain] ++ msgPartHtml :: []) =
      ['<', 'b', '>', 'H', '<', '/', 'b', '>'] :=
  extractMultipartBody_flat_html_wins (fun d => some d) [msgPartPlain] []
    msgPartHtml ['<', 'b', '>', 'H', '<', '/', 'b', '>']
    (by
      intro p hp
      simp only [List.cons_append, List.nil_append, List.mem_cons,
        List.not_mem_nil, or_false] at hp
      rcases hp with rfl | rfl <;> rfl)
    rfl (by decide) rfl (by decide)
    (fun p hp _ _ => absurd hp (List.not_mem_nil p))

/-! ## Stores (repository/memory and repository/postgres)

The in-memory email repository is a map keyed on the email's local id;
the Postgres email repository is a table whose schema declares the
gmail_id column UNIQUE (globally, not per owner) and whose Create is
an INSERT .. ON CONFLICT (gmail_id) DO UPDATE. -/

/-- model.User (the fields the embedded operations read). -/
structure User where
  id : String
  email : String
deriving DecidableEq

/-- model.Category. -/
structure Category where
  id : String
  name : String
  description : String
deriving DecidableEq

/-- InMemoryEmailRepository.Create: map assignment keyed on the local
id (an upsert, never an error). -/
def memCreate (st : List Email) (e : Email) : List Email :=
  if st.any (fun x => x.id == e.id) then
    st.map (fun x => if x.id == e.id then e else x)
  else st ++ [e]

/-- InMemoryEmailRepository.FindByID. -/
def memFindByID (st : List Email) (id : String) : Option Email :=
  st.find? (fun e => e.id == id)

/-- InMemoryEmailRepository.FindByGmailID: lookup by the
(owner, provider id) pair. -/
def memFindByGmailID (st : List Email) (uid gid : String) : Option Email :=
  st.find? (fun e => e.userID == uid && e.gmailID == gid)

/-- InMemoryEmailRepository.Update: replaces the entry; an error when
the id is absent. -/
def memUpdate (st : List Email) (e : Email) : Option (List Email) :=
  if st.any (fun x => x.id == e.id) then
    some (st.map (fun x => if x.id == e.id then e else x))
  else none

/-- InMemoryEmailRepository.Delete (never fails). -/
def memDelete (st : List Email) (id : String) : List Email :=
  st.filter (fun e => !(e.id == id))

/-- The ON CONFLICT (gmail_id) DO UPDATE row merge of
PostgresEmailRepository.Create: a row whose gmail_id equals the
incoming email's gmail_id takes the incoming user_id, from_email,
subject, body, summary, category_id, received_at and archived values;
its id and created_at are kept and updated_at is set to NOW(). -/
def pgMerge (now : Nat) (e : Email) (r : Email) : Email :=
  if r.gmailID == e.gmailID then
    { r with
      userID := e.userID
      fromAddr := e.fromAddr
      subject := e.subject
      body := e.body
      summary := e.summary
      categoryID := e.categoryID
      receivedAt := e.receivedAt
      archived := e.archived
      updatedAt := now }
  else r

/-- PostgresEmailRepository.Create: plain insert when no row holds the
incoming gmail_id, otherwise the conflicting row is updated in place
(the conflict target is gmail_id alone). -/
def pgCreate (now : Nat) (rows : List Email) (e : Email) : List Email :=
  if rows.any (fun r => r.gmailID == e.gmailID) then
    rows.map (pgMerge now e)
  else rows ++ [e]

/-- The schema constraint on the emails table: gmail_id is globally
unique across all rows. -/
def uniqueGmailID (rows : List Email) : Prop :=
  rows.Pairwise (fun a b => a.gmailID ≠ b.gmailID)

/-- No two rows share the (owner, provider id) pair. -/
def uniquePair (rows : List Email) : Prop :=
  rows.Pairwise (fun a b => ¬(a.userID = b.userID ∧ a.gmailID = b.gmailID))

/-- A message stored for owner alice under provider id g1. -/
def aliceEmail : Email :=
  { id := "a1", userID := "alice", gmailID := "g1", fromAddr := "x@y",
    subject := "s1", body := "b1", summary := "sum1", categoryID := "c1",
    receivedAt := 1, archived := false, createdAt := 1, updatedAt := 1 }

/-- A create issued for owner bob carrying the same provider id g1. -/
def bobEmail : Email :=
  { id := "b1", userID := "bob", gmailID := "g1", fromAddr := "z@w",
    subject := "s2", body := "b2", summary := "", categoryID := "",
    receivedAt := 2, archived := false, createdAt := 2, updatedAt := 2 }

/-- C2 counterexample: the uniqueness key is gmail_id alone, so a
create for owner bob whose provider id collides with owner alice's
stored message updates alice's row in place and reassigns it to bob —
refuting the conjunct that a create for one owner never overwrites or
reassigns a stored message belonging to a different owner with the
same provider id. -/
theorem pgCreate_reassigns_cross_owner :
    (pgCreate 5 [aliceEmail] bobEmail).map
        (fun r => (r.id, r.userID, r.gmailID, r.subject)) =
      [(("a1"), ("bob"), ("g1"), ("s2"))] ∧
    (pgCreate 5 [aliceEmail] bobEmail).filter
      (fun r => r.userID == "alice") = [] := by
  decide

theorem pgMerge_gmailID (now : Nat) (e r : Email) :
    (pgMerge now e r).gmailID = r.gmailID := by
  unfold pgMerge
  split <;> rfl

/-- C2 amended: the store enforces uniqueness on the provider id
alone, not on the (owner, providerId) pair: pgCreate preserves global
uniqueness of gmail_id, and that implies no two stored rows share the
same (owner, providerId) pair; but the conflict key is gmail_id alone,
and a create whose provider id collides with a different owner's row
overwrites that row in place and reassigns its ownership (see the
counterexample). -/
theorem pgCreate_unique_gmailID (now : Nat) (rows : List Email) (e : Email)
    (hinv : uniqueGmailID rows) :
    uniqueGmailID (pgCreate now rows e) ∧ uniquePair (pgCreate now rows e) := by
  have main : uniqueGmailID (pgCreate now rows e) := by
    unfold pgCreate
    by_cases hc : rows.any (fun r => r.gmailID == e.gmailID) = true
    · rw [if_pos hc]
      unfold uniqueGmailID
      rw [List.pairwise_map]
      exact hinv.imp (fun hab => by
        simpa [pgMerge_gmailID] using hab)
    · rw [if_neg hc]
      unfold uniqueGmailID
      rw [List.pairwise_append]
      refine ⟨hinv, List.pairwise_singleton _ _, ?_⟩
      intro a ha b hb
      simp only [List.mem_singleton] at hb
      subst hb
      simp only [List.any_eq_true, not_exists, not_and] at hc
      intro hab
      exact hc a ha (by simp [hab])
  refine ⟨main, main.imp ?_⟩
  intro a b hab h
  exact hab h.2

/-- Witness for C2 (amended): evaluated at alice's one-row store and
bob's colliding create. -/
theorem pgCreate_unique_gmailID_witness :
    uniqueGmailID (pgCreate 5 [aliceEmail] bobEmail) ∧
    uniquePair (pgCreate 5 [aliceEmail] bobEmail) :=
  pgCreate_unique_gmailID 5 [aliceEmail] bobEmail (by simp [uniqueGmailID])

/-! ## Sync engine (emailService.SyncEmails and
ClassifyAndSummarizeEmail, internal/service/email_service.go)

The AI calls, the remote archive call and the current time are
parameters; the user lookup, category load and Gmail fetch results are
passed as Except values.  The bounded goroutine fan-out is modelled
sequentially in fetch order — the claims settled here are evaluated on
single-message batches, where the order is immaterial. -/

/-- The name-to-id category map of ClassifyAndSummarizeEmail: the Go
map is filled by iterating the category list, so a later category with
the same name overwrites an earlier one. -/
def categoryMapLookup (cats : List Category) (name : String) : Option String :=
  ((cats.filter (fun c => c.name == name)).getLast?).map (fun c => c.id)

/-- emailService.ClassifyAndSummarizeEmail: classify the body, resolve
the category id (defaulting to the first category when the classified
name is unknown; an error when the category list is empty), summarize,
and return the email with category_id, summary and updated_at set.
On any error the message is not persisted by the caller, so the value
model returns only the error. -/
def classifyAndSummarizeEmail (classify : String → Except String String)
    (summarize : String → Except String String) (now : Nat)
    (cats : List Category) (e : Email) : Except String Email :=
  match classify e.body with
  | .error err => .error err
  | .ok name =>
    match
      (match categoryMapLookup cats name with
       | some cid => Except.ok cid
       | none =>
         match cats with
         | c :: _ => Except.ok c.id
         | [] => Except.error ("no categories found for classification")) with
    | .error err => Except.error (α := Email) err
    | .ok cid =>
      match summarize e.body with
      | .error err => .error err
      | .ok s =>
        .ok { e with categoryID := cid, summary := s, updatedAt := now }

/-- The per-message goroutine body of emailService.SyncEmails: assign
the owner id, skip when a message with the same (owner, providerId)
already exists, classify and summarize (an error is sent to errChan
and the message is not persisted), create, then best-effort archive
(on success the archived flag is set and the store updated; a failure
is logged only).  Returns the store, the recorded error if any, and
the final value of the shared email object — the Go goroutine mutates
the same object that the function's final loop re-creates. -/
def syncProcessOne (classify summarize : String → Except String String)
    (archiveOk : String → Bool) (now : Nat) (cats : List Category)
    (uid : String) (st : List Email) (e : Email) :
    List Email × Option String × Email :=
  let e1 := { e with userID := uid }
  match memFindByGmailID st uid e1.gmailID with
  | some _ => (st, none, e1)
  | none =>
    match classifyAndSummarizeEmail classify summarize now cats e1 with
    | .error err => (st, some err, e1)
    | .ok e2 =>
      let st2 := memCreate st e2
      if archiveOk e2.gmailID then
        let e3 := { e2 with archived := true }
        match memUpdate st2 e3 with
        | some st3 => (st3, none, e3)
        | none => (st2, none, e3)
      else (st2, none, e2)

/-- The goroutine fan-out of SyncEmails over the fetched messages,
sequential in fetch order: final store, recorded errors, and the final
values of the shared email objects in order. -/
def syncPhase1 (classify summarize : String → Except String String)
    (archiveOk : String → Bool) (now : Nat) (cats : List Category)
    (uid : String) : List Email → List Email →
    List Email × List String × List Email
  | st, [] => (st, [], [])
  | st, e :: rest =>
    let r := syncProcessOne classify summarize archiveOk now cats uid st e
    let r2 := syncPhase1 classify summarize archiveOk now cats uid r.1 rest
    (r2.1,
     (match r.2.1 with
      | some m => m :: r2.2.1
      | none => r2.2.1),
     r.2.2 :: r2.2.2)

/-- emailService.SyncEmails: resolve the user, load the categories,
fetch from Gmail, run the per-message fan-out, and report the first
recorded error if any; then — the final loop of the Go function — set
the owner id on every fetched message and Create it unconditionally,
regardless of the dedupe skip taken in the fan-out. -/
def syncEmails (classify summarize : String → Except String String)
    (archiveOk : String → Bool) (now : Nat) (user? : Option User)
    (catsRes : Except String (List Category))
    (fetched : Except String (List Email)) (uid : String)
    (st : List Email) : Except String (List Email) :=
  match user? with
  | none => .error ("failed to get user")
  | some user =>
    match catsRes with
    | .error err => .error err
    | .ok cats =>
      match fetched with
      | .error err => .error err
      | .ok gmailEmails =>
        match syncPhase1 classify summarize archiveOk now cats uid st gmailEmails with
        | (st1, errs, processed) =>
          if errs.isEmpty then
            .ok (processed.foldl
              (fun s e => memCreate s { e with userID := user.id }) st1)
          else .error ("failed to sync some emails")

/-- Whether an Except result is a success. -/
def exceptOk {α : Type} (r : Except String α) : Bool :=
  match r with
  | .ok _ => true
  | .error _ => false

/-- The store carried by a successful Except result. -/
def exceptStore (r : Except String (List Email)) : List Email :=
  match r with
  | .ok st => st
  | .error _ => []

/-- The syncing owner. -/
def syncUser : User := { id := "u1", email := "u1@x" }

/-- The shared category set. -/
def syncCats : List Category :=
  [{ id := "c1", name := "Work", description := "w" }]

/-- The message fetched by the first sync run (fresh local uuid id1,
provider id m1). -/
def fetchedEmail1 : Email :=
  NewEmail ("id1") ("") ("m1") ("s@x") ("subj") ("hello") 10 10

/-- The same provider message as fetched by the second run: the Gmail
client builds a new model.Email with a fresh local uuid (id2) but the
same provider id m1. -/
def fetchedEmail2 : Email :=
  NewEmail ("id2") ("") ("m1") ("s@x") ("subj") ("hello") 10 20

/-- An AI classifier that always answers Work. -/
def okClassify : String → Except String String := fun _ => .ok ("Work")

/-- An AI summarizer that always answers sum. -/
def okSummarize : String → Except String String := fun _ => .ok ("sum")

/-- A remote archive call that always fails (logged and ignored). -/
def noArchive : String → Bool := fun _ => false

/-- The first sync run from an empty store. -/
def syncRun1 : Except String (List Email) :=
  syncEmails okClassify okSummarize noArchive 10 (some syncUser)
    (.ok syncCats) (.ok [fetchedEmail1]) ("u1") []

/-- The store after the first run. -/
def syncStore1 : List Email := exceptStore syncRun1

/-- The second sync run over the same upstream message set. -/
def syncRun2 : Except String (List Email) :=
  syncEmails okClassify okSummarize noArchive 20 (some syncUser)
    (.ok syncCats) (.ok [fetchedEmail2]) ("u1") syncStore1

/-- The store after the second run. -/
def syncStore2 : List Email := exceptStore syncRun2

/-- C1 (code bug evaluation): the first sync run persists the one
fetched message; the second run with the same upstream message set
takes the dedupe skip in the fan-out, yet the unconditional Create
loop at the end of SyncEmails persists the fetched message again under
its fresh local id — the store grows to two rows sharing the
(owner, providerId) pair (u1, m1), the duplicate row never classified
or summarized.  This refutes idempotent sync on the code as written. -/
theorem syncEmails_second_run_not_idempotent :
    exceptOk syncRun1 = true ∧
    exceptOk syncRun2 = true ∧
    syncStore1.length = 1 ∧
    syncStore2.length = 2 ∧
    syncStore2.map (fun e => (e.userID, e.gmailID)) =
      [(("u1"), ("m1")), (("u1"), ("m1"))] ∧
    syncStore2.map (fun e => e.summary) = [("sum"), ("")] ∧
    syncStore2 ≠ syncStore1 := by
  decide

/-! ## Bulk delete (emailService.DeleteEmails and
gmailClient.DeleteEmails) -/

/-- The validation loop of DeleteEmails: keep each id that resolves to
a stored message owned by the caller; a lookup failure or an ownership
mismatch is logged and silently skipped. -/
def collectValidEmails (st : List Email) (uid : String) :
    List String → List Email
  | [] => []
  | id :: rest =>
    match memFindByID st id with
    | none => collectValidEmails st uid rest
    | some e =>
      if e.userID == uid then e :: collectValidEmails st uid rest
      else collectValidEmails st uid rest

/-- gmailClient.DeleteEmails (internal/gmail/gmail_client.go): walk
the ids, attempt each remote delete, and log and continue on a
per-message failure.  Returns the ids actually deleted remotely and
the call's result — which is always nil: every per-message remote
failure is swallowed. -/
def gmailDeleteEmailsRun (remoteOk : String → Bool) (ids : List String) :
    List String × Option String :=
  (ids.filter remoteOk, none)

/-- emailService.DeleteEmails: validate ownership, return nil when no
valid message remains, resolve the user, delete the batch remotely
first — a reported remote error aborts the whole batch's local
deletion with the store unchanged — then delete each message locally
(the in-memory delete never fails, so the aggregated local-error path
stays empty).  The remote call is the remoteDelete parameter
(some err = reported failure). -/
def serviceDeleteEmails (remoteDelete : List String → Option String)
    (user? : Option User) (st : List Email) (emailIDs : List String)
    (uid : String) : Except String (List Email) :=
  let toDelete := collectValidEmails st uid emailIDs
  if toDelete.isEmpty then .ok st
  else
    match user? with
    | none => .error ("failed to get user")
    | some _ =>
      match remoteDelete (toDelete.map (fun e => e.gmailID)) with
      | some err => .error (("failed to delete emails from Gmail: ") ++ err)
      | none => .ok (toDelete.foldl (fun s e => memDelete s e.id) st)

/-- A stored message of owner u1 with the given local and provider id. -/
def delEmail (n g : String) : Email :=
  NewEmail n ("u1") g ("f@x") ("s") ("b") 1 1

/-- A three-message store owned by u1. -/
def threeStore : List Email :=
  [delEmail ("a") ("g1"), delEmail ("b") ("g2"), delEmail ("c") ("g3")]

/-- C3 (code bug evaluation): for a batch of three messages whose
remote deletions all fail, gmailClient.DeleteEmails deletes nothing
remotely yet reports success — it swallows every per-message failure
and always returns nil — so DeleteEmails proceeds to delete all three
locally, leaving remote and local state divergent.  The abort path the
claim describes fires only when the client reports an error (last
conjunct), which the provided Gmail client never does. -/
theorem deleteEmails_swallowed_remote_failure :
    (gmailDeleteEmailsRun (fun _ => false) [("g1"), ("g2"), ("g3")]).1 = [] ∧
    (gmailDeleteEmailsRun (fun _ => false) [("g1"), ("g2"), ("g3")]).2 = none ∧
    exceptOk (serviceDeleteEmails
      (fun ids => (gmailDeleteEmailsRun (fun _ => false) ids).2)
      (some syncUser) threeStore [("a"), ("b"), ("c")] ("u1")) = true ∧
    exceptStore (serviceDeleteEmails
      (fun ids => (gmailDeleteEmailsRun (fun _ => false) ids).2)
      (some syncUser) threeStore [("a"), ("b"), ("c")] ("u1")) = [] ∧
    exceptOk (serviceDeleteEmails (fun _ => some ("remote failure"))
      (some syncUser) threeStore [("a"), ("b"), ("c")] ("u1")) = false := by
  decide

/-! ## Unsubscribe automation (unsubscribeService,
internal/service/email_service.go) -/

/-- The per-candidate loop of processEmailUnsubscribe: try each
discovered URL in order until one succeeds.  The second component
counts the handleUnsubscribeURL invocations; each such invocation
performs at least one network fetch. -/
def unsubTryLoop (tryUnsub : String → Bool) :
    List String → Except String Unit × Nat
  | [] => (.error ("failed to unsubscribe using any of the found URLs"), 0)
  | u :: rest =>
    if tryUnsub u then (.ok (), 1)
    else
      match unsubTryLoop tryUnsub rest with
      | (r, n) => (r, n + 1)

/-- unsubscribeService.processEmailUnsubscribe: link discovery
(findUnsubscribeLinks, a regex and HTML anchor scan over the stored
body — a pure computation with no network access) is abstracted as the
discovered candidate list, and handleUnsubscribeURL as the tryUnsub
oracle.  Zero candidates fail immediately with zero network calls;
otherwise candidates are tried in discovery order, terminating at the
first success; if every candidate fails, one aggregated failure is
reported for the message. -/
def processEmailUnsubscribe (links : List String)
    (tryUnsub : String → Bool) : Except String Unit × Nat :=
  if links.isEmpty then
    (.error ("no unsubscribe links found in email body"), 0)
  else unsubTryLoop tryUnsub links

theorem unsubTryLoop_all_fail (tryUnsub : String → Bool) (l : List String)
    (h : ∀ v ∈ l, tryUnsub v = false) :
    unsubTryLoop tryUnsub l =
      (.error ("failed to unsubscribe using any of the found URLs"),
       l.length) := by
  induction l with
  | nil => rfl
  | cons u rest ih =>
    have hu := h u (List.mem_cons_self _ _)
    have ih2 := ih (fun v hv => h v (List.mem_cons_of_mem _ hv))
    simp [unsubTryLoop, hu, ih2]

theorem unsubTryLoop_first_success (tryUnsub : String → Bool)
    (pre : List String) (hpre : ∀ v ∈ pre, tryUnsub v = false)
    (u : String) (hu : tryUnsub u = true) (rest : List String) :
    unsubTryLoop tryUnsub (pre ++ u :: rest) = (.ok (), pre.length + 1) := by
  induction pre with
  | nil => simp [unsubTryLoop, hu]
  | cons v pre2 ih =>
    have hv := hpre v (List.mem_cons_self _ _)
    have ih2 := ih (fun w hw => hpre w (List.mem_cons_of_mem _ hw))
    simp [unsubTryLoop, hv, ih2]

/-- C8: for every stored message, unsubscribing tries the discovered
candidate URLs in discovery order and terminates at the first
candidate that succeeds; zero discoverable links fail immediately
without any network call; and if every candidate fails, one aggregated
failure is reported for the message. -/
theorem processEmailUnsubscribe_first_success (links : List String)
    (tryUnsub : String → Bool) :
    (links = [] → processEmailUnsubscribe links tryUnsub =
      (.error ("no unsubscribe links found in email body"), 0)) ∧
    (∀ pre u rest, links = pre ++ u :: rest →
      (∀ v ∈ pre, tryUnsub v = false) → tryUnsub u = true →
      processEmailUnsubscribe links tryUnsub = (.ok (), pre.length + 1)) ∧
    ((∀ v ∈ links, tryUnsub v = false) → links ≠ [] →
      processEmailUnsubscribe links tryUnsub =
        (.error ("failed to unsubscribe using any of the found URLs"),
         links.length)) := by
  refine ⟨?_, ?_, ?_⟩
  · intro h
    subst h
    rfl
  · intro pre u rest hsplit hpre hu
    subst hsplit
    have hne : ((pre ++ u :: rest).isEmpty) = false := by
      cases pre <;> rfl
    simp [processEmailUnsubscribe, hne,
      unsubTryLoop_first_success tryUnsub pre hpre u hu rest]
  · intro hall hne
    have hne2 : links.isEmpty = false := by
      cases links with
      | nil => exact absurd rfl hne
      | cons a t => rfl
    simp [processEmailUnsubscribe, hne2, unsubTryLoop_all_fail tryUnsub links hall]

/-- Witness for C8: no candidates fail fast with zero calls; of three
candidates with the second succeeding, exactly two are attempted; two
failing candidates yield the single aggregated failure. -/
theorem processEmailUnsubscribe_first_success_witness :
    processEmailUnsubscribe [] (fun _ => false) =
      (.error ("no unsubscribe links found in email body"), 0) ∧
    processEmailUnsubscribe [("u1"), ("u2"), ("u3")] (fun v => v == "u2") =
      (.ok (), 2) ∧
    processEmailUnsubscribe [("u1"), ("u2")] (fun _ => false) =
      (.error ("failed to unsubscribe using any of the found URLs"), 2) := by
  refine ⟨(processEmailUnsubscribe_first_success [] (fun _ => false)).1 rfl,
    ?_, ?_⟩
  · exact (processEmailUnsubscribe_first_success
      [("u1"), ("u2"), ("u3")] (fun v => v == "u2")).2.1
      [("u1")] ("u2") [("u3")] rfl (by decide) (by decide)
  · exact (processEmailUnsubscribe_first_success
      [("u1"), ("u2")] (fun _ => false)).2.2 (by decide) (by decide)

/-- The validation loop of UnsubscribeEmails: the same
lookup-and-ownership filter DeleteEmails uses (the source duplicates
it). -/
def collectEmailsToUnsubscribe (st : List Email) (uid : String) :
    List String → List Email
  | [] => []
  | id :: rest =>
    match memFindByID st id with
    | none => collectEmailsToUnsubscribe st uid rest
    | some e =>
      if e.userID == uid then e :: collectEmailsToUnsubscribe st uid rest
      else collectEmailsToUnsubscribe st uid rest

/-- The processing loop of UnsubscribeEmails: each valid message is
handed to processEmailUnsubscribe; a per-message failure is logged and
processing continues. -/
def unsubProcessAll (process : Email → Except String Unit) :
    List Email → Option String
  | [] => none
  | e :: rest =>
    match process e with
    | .ok _ => unsubProcessAll process rest
    | .error _ => unsubProcessAll process rest

/-- unsubscribeService.UnsubscribeEmails: validate the ids, warn and
return nil when no valid message remains, process each valid message,
and return nil. -/
def unsubscribeEmails (process : Email → Except String Unit)
    (st : List Email) (emailIDs : List String) (uid : String) :
    Option String :=
  let valid := collectEmailsToUnsubscribe st uid emailIDs
  if valid.isEmpty then none
  else unsubProcessAll process valid

theorem unsubProcessAll_eq_none (process : Email → Except String Unit)
    (l : List Email) : unsubProcessAll process l = none := by
  induction l with
  | nil => rfl
  | cons e rest ih =>
    unfold unsubProcessAll
    cases process e <;> exact ih

/-- C10: UnsubscribeEmails returns success (a nil error) for every
input once its per-id validation loop completes: a per-message
unsubscribe failure — even the failure of every message in the batch —
and a batch in which no message passes the existence and ownership
check both produce a nil result, so at this interface total
unsubscribe failure is indistinguishable from success. -/
theorem unsubscribeEmails_always_ok (process : Email → Except String Unit)
    (st : List Email) (emailIDs : List String) (uid : String) :
    unsubscribeEmails process st emailIDs uid = none := by
  unfold unsubscribeEmails
  by_cases h : (collectEmailsToUnsubscribe st uid emailIDs).isEmpty = true
  · simp [h]
  · simp only [Bool.not_eq_true] at h
    simp [h, unsubProcessAll_eq_none]

/-! ## Realtime broadcaster registry (sse.SSEManager)

The clients field map[string]map[chan []byte]bool is modelled as an
association list from owner id to the owner's sink set; channels are
identified by naturals and the closed field records every channel
passed to close. -/

/-- The SSE registry state. -/
structure SSEState where
  clients : List (String × List Nat)
  closed : List Nat

/-- Registry map lookup. -/
def lookupClients (m : List (String × List Nat)) (uid : String) :
    Option (List Nat) :=
  (m.find? (fun p => p.1 == uid)).map (fun p => p.2)

/-- Registry map assignment. -/
def setClients (m : List (String × List Nat)) (uid : String)
    (sinks : List Nat) : List (String × List Nat) :=
  if m.any (fun p => p.1 == uid) then
    m.map (fun p => if p.1 == uid then (uid, sinks) else p)
  else m ++ [(uid, sinks)]

/-- Registry map entry removal. -/
def removeUser (m : List (String × List Nat)) (uid : String) :
    List (String × List Nat) :=
  m.filter (fun p => !(p.1 == uid))

/-- SSEManager.AddClient: create the owner's sink set if absent and
add the fresh buffered channel to it. -/
def addClient (s : SSEState) (uid : String) (ch : Nat) : SSEState :=
  let sinks :=
    match lookupClients s.clients uid with
    | some sk => sk
    | none => []
  let sinks2 := if ch ∈ sinks then sinks else sinks ++ [ch]
  { s with clients := setClients s.clients uid sinks2 }

/-- SSEManager.RemoveClient: when the owner is registered, delete the
channel from the owner's set, close the channel, and remove the
owner's entry when the set became empty. -/
def removeClient (s : SSEState) (uid : String) (ch : Nat) : SSEState :=
  match lookupClients s.clients uid with
  | none => s
  | some sinks =>
    let sinks2 := sinks.erase ch
    let closed2 := ch :: s.closed
    if sinks2.isEmpty then
      { clients := removeUser s.clients uid, closed := closed2 }
    else
      { clients := setClients s.clients uid sinks2, closed := closed2 }

/-- SSEManager.BroadcastEmailToUser and BroadcastToUser: delivery
iterates the owner's sinks under the read lock and never mutates the
registry; an owner with no entry is a silent no-op.  Returns the
unchanged state and the number of sinks targeted. -/
def broadcastToUser (s : SSEState) (uid : String) : SSEState × Nat :=
  match lookupClients s.clients uid with
  | none => (s, 0)
  | some sinks => (s, sinks.length)

/-- Every owner present in the registry maps to a non-empty sink set. -/
def sseInvariant (s : SSEState) : Prop :=
  ∀ p ∈ s.clients, p.2 ≠ []

theorem mem_setClients (m : List (String × List Nat)) (uid : String)
    (sinks : List Nat) :
    ∀ q ∈ setClients m uid sinks, q ∈ m ∨ q = (uid, sinks) := by
  intro q hq
  unfold setClients at hq
  by_cases hm : m.any (fun p => p.1 == uid) = true
  · rw [if_pos hm] at hq
    obtain ⟨p, hp, hpq⟩ := List.mem_map.mp hq
    by_cases hp1 : (p.1 == uid) = true
    · rw [if_pos hp1] at hpq
      exact Or.inr hpq.symm
    · rw [if_neg hp1] at hpq
      exact Or.inl (hpq ▸ hp)
  · rw [if_neg hm] at hq
    rcases List.mem_append.mp hq with h | h
    · exact Or.inl h
    · exact Or.inr (List.mem_singleton.mp h)

theorem find?_mapSet (uid : String) (sinks : List Nat) :
    ∀ m : List (String × List Nat), m.any (fun p => p.1 == uid) = true →
    List.find? (fun p => p.1 == uid)
      (m.map (fun p => if (p.1 == uid) = true then (uid, sinks) else p)) =
      some (uid, sinks) := by
  intro m
  induction m with
  | nil => intro h; simp at h
  | cons p rest ih =>
    intro h
    by_cases hp : (p.1 == uid) = true
    · simp [List.find?, hp]
    · have hp2 : (p.1 == uid) = false := by simpa using hp
      have h2 : rest.any (fun p => p.1 == uid) = true := by
        simpa [List.any_cons, hp2] using h
      simp only [List.map_cons]
      rw [if_neg hp, List.find?_cons]
      simp only [hp2]
      exact ih h2

theorem find?_setClients_self (m : List (String × List Nat)) (uid : String)
    (sinks : List Nat) :
    lookupClients (setClients m uid sinks) uid = some sinks := by
  unfold setClients
  by_cases hm : m.any (fun p => p.1 == uid) = true
  · rw [if_pos hm]
    unfold lookupClients
    rw [find?_mapSet uid sinks m hm]
    rfl
  · rw [if_neg hm]
    have hn : m.find? (fun p => p.1 == uid) = none := by
      rw [List.find?_eq_none]
      intro x hx
      simp only [List.any_eq_true, not_exists, not_and] at hm
      simpa using hm x hx
    unfold lookupClients
    rw [List.find?_append, hn]
    simp [List.find?]

theorem lookupClients_removeUser (m : List (String × List Nat))
    (uid : String) : lookupClients (removeUser m uid) uid = none := by
  unfold lookupClients removeUser
  rw [List.find?_eq_none.mpr]
  · rfl
  · intro x hx
    have := (List.mem_filter.mp hx).2
    simp_all

theorem lookupClients_mem (m : List (String × List Nat)) (uid : String)
    (sinks : List Nat) (h : lookupClients m uid = some sinks) :
    ∃ p ∈ m, p.2 = sinks := by
  unfold lookupClients at h
  cases hf : m.find? (fun p => p.1 == uid) with
  | none => rw [hf] at h; simp at h
  | some p =>
    rw [hf] at h
    refine ⟨p, List.mem_of_find?_eq_some hf, ?_⟩
    simpa using h

/-- C9: the broadcaster registry maintains, across every register,
unregister and deliver operation, the invariant that every owner
present in the registry maps to a non-empty sink set; delivery never
mutates the registry; unregistering a registered owner's sink removes
it and closes it, and unregistering the owner's last sink also removes
the owner's entry from the registry. -/
theorem sse_registry_invariant (s : SSEState) (uid : String) (ch : Nat)
    (hinv : sseInvariant s) :
    sseInvariant (addClient s uid ch) ∧
    sseInvariant (removeClient s uid ch) ∧
    (broadcastToUser s uid).1 = s ∧
    (∀ sinks, lookupClients s.clients uid = some sinks →
      ch ∈ (removeClient s uid ch).closed ∧
      lookupClients (removeClient s uid ch).clients uid =
        (if (sinks.erase ch).isEmpty then none else some (sinks.erase ch))) := by
  refine ⟨?_, ?_, ?_, ?_⟩
  · intro q hq
    unfold addClient at hq
    simp only at hq
    rcases mem_setClients _ _ _ q hq with h | h
    · exact hinv q h
    · subst h
      simp only
      cases hl : lookupClients s.clients uid with
      | none =>
        simp only [hl]
        intro hcontra
        simp at hcontra
      | some sk =>
        obtain ⟨p, hp, hp2⟩ := lookupClients_mem _ _ _ hl
        have hsk : sk ≠ [] := hp2 ▸ hinv p hp
        simp only [hl]
        by_cases hch : ch ∈ sk
        · simpa [hch] using hsk
        · simp [hch]
  · intro q hq
    unfold removeClient at hq
    cases hl : lookupClients s.clients uid with
    | none =>
      rw [hl] at hq
      exact hinv q hq
    | some sinks =>
      rw [hl] at hq
      simp only at hq
      by_cases he : (sinks.erase ch).isEmpty = true
      · rw [if_pos he] at hq
        simp only at hq
        exact hinv q ((List.mem_filter.mp hq).1)
      · rw [if_neg he] at hq
        simp only at hq
        rcases mem_setClients _ _ _ q hq with h | h
        · exact hinv q h
        · subst h
          simp only [Bool.not_eq_true] at he
          simpa [List.isEmpty_iff] using he
  · unfold broadcastToUser
    cases lookupClients s.clients uid <;> rfl
  · intro sinks hl
    constructor
    · simp only [removeClient, hl]
      by_cases he : (sinks.erase ch).isEmpty = true
      · simp [he]
      · simp [he]
    · simp only [removeClient, hl]
      by_cases he : (sinks.erase ch).isEmpty = true
      · simp [he, lookupClients_removeUser]
      · simp [he, find?_setClients_self]

/-- Witness for C9 at the one-owner registry whose single sink is
removed. -/
theorem sse_registry_invariant_witness :
    sseInvariant (addClient ⟨[(("u"), [1])], []⟩ ("u") 1) ∧
    sseInvariant (removeClient ⟨[(("u"), [1])], []⟩ ("u") 1) ∧
    (broadcastToUser ⟨[(("u"), [1])], []⟩ ("u")).1 = ⟨[(("u"), [1])], []⟩ ∧
    (1 ∈ (removeClient ⟨[(("u"), [1])], []⟩ ("u") 1).closed ∧
      lookupClients (removeClient ⟨[(("u"), [1])], []⟩ ("u") 1).clients ("u") =
        none) := by
  have h := sse_registry_invariant ⟨[(("u"), [1])], []⟩ ("u") 1
    (by intro p hp; simp only [List.mem_singleton] at hp; subst hp; simp)
  refine ⟨h.1, h.2.1, h.2.2.1, (h.2.2.2 [1] rfl).1, ?_⟩
  have h2 := (h.2.2.2 [1] rfl).2
  simpa using h2
